import Mathlib

/-!
Verification of the spool-backend interview service.

This file shallowly embeds the interview service's core algorithms
(`src/services/interview/src/`) as executable Lean definitions and proves
properties of them:

* `turn_credentials.py`: TURN credential generation and validation
  (`TurnCredentialGenerator.generate_credentials` / `validate_credentials` /
  `__init__`).  The base64-encoded HMAC-SHA1 digest is modelled as an
  abstract keyed function `mac : List Char → List Char → List Char`
  (secret, message ↦ digest); everything else — the expiry arithmetic, the
  `"<expiry>:<identity>"` username format, the parse-and-compare validator —
  is translated directly.  Python's `str(int)` is modelled by `natDigits`,
  Python's `int(str)` (base 10, optional sign, optional whitespace, PEP-515
  underscores, ASCII) by `pyInt`.
* `langgraph_interview.py`: the interview stage machine
  (`determine_next_stage`, `_should_continue`) and the interest tagger
  (`_extract_interest_tags`, the dedup-by-name accumulation loop in
  `extract_interests`).
* `lambda_integration.py`: `generate_thread_title`,
  `transform_interview_to_thread` and the keyword taxonomy matcher
  `analyze_conversation`.  Python dicts carrying messages are modelled as
  association lists (`Msg`) with first-match lookup (`pyGet`, which models
  `dict.get`); `list(set(...))` is modelled as `List.dedup` (membership-
  faithful; Python's set iteration order is unspecified).
* `voice_agent.py`: the per-turn audio pipeline `InterviewHandler.process`
  with its try/except boundary, modelled with explicit `Except` results
  for the STT / LLM / TTS capabilities and explicit state passing, and
  `_clean_response_for_tts`.
* `main.py`: the default-secret fallback of `TurnCredentialGenerator.__init__`
  as used at startup (`init_turn_secret`), and `handle_interest_detected`'s
  dedup (same shape as the graph's, covered by `commit_graph`).

Python string scanning (`re.findall` / `re.sub` over the `[INTEREST: ...]`
marker pattern) is implemented with fuel-indexed structural recursion so
every definition stays executable by `decide` / `rfl`.
-/

/-! ### Python text primitives -/

/-- ASCII model of Python's default whitespace (`str.strip`, `str.split`,
`\s` for the inputs that occur here): space, tab, newline, carriage
return, vertical tab, form feed. -/
def pyIsSpace (c : Char) : Bool :=
  c = ' ' || c = '\t' || c = '\n' || c = '\r' || c = '\x0b' || c = '\x0c'

/-- Python `str.strip()` on a list of characters. -/
def pyStripL (l : List Char) : List Char :=
  ((l.dropWhile pyIsSpace).reverse.dropWhile pyIsSpace).reverse

/-- A Python dict with string keys and string values, as the service uses
them for transcript entries / conversation messages: an association list,
looked up by first match. -/
abbrev Msg := List (String × String)

/-- Python `m.get(k)`: `some v` for the first binding of `k`, else `none`. -/
def pyGet (m : Msg) (k : String) : Option String :=
  (m.find? (fun p => p.1 == k)).map (fun p => p.2)

/-- Python's substring test `needle in hay`. -/
def containsSeq (needle : List Char) : List Char → Bool
  | [] => needle.isEmpty
  | c :: r => needle.isPrefixOf (c :: r) || containsSeq needle r

/-- Python slice `s[:n]`. -/
def pySlice (s : String) (n : Nat) : String :=
  String.mk (s.toList.take n)

/-- Digit character of a decimal digit, as produced by Python `str(int)`. -/
def dChar (d : Nat) : Char := Char.ofNat (48 + d)

/-- Numeric value of a decimal digit character. -/
def charVal (c : Char) : Nat := c.toNat - 48

/-- Fueled big-endian decimal digit emitter (the fuel only bounds the
recursion depth; `natDigits` always supplies enough). -/
def natDigitsGo : Nat → Nat → List Char → List Char
  | 0, _, acc => acc
  | fuel + 1, n, acc =>
    if n < 10 then dChar n :: acc
    else natDigitsGo fuel (n / 10) (dChar (n % 10) :: acc)

/-- Python `str(n)` for a natural number: decimal digits, no leading zeros. -/
def natDigits (n : Nat) : List Char := natDigitsGo (n + 1) n []

/-- Digit-group scanner for `pyInt`: accumulates decimal digits, allowing a
single underscore between two digits (PEP 515), exactly as CPython's
`int(str)` does.  The `Bool` records a pending underscore that must be
followed by a digit. -/
def pudLoop : Nat → Bool → List Char → Option Nat
  | a, false, [] => some a
  | _, true, [] => none
  | a, pend, c :: r =>
    if c.isDigit then pudLoop (a * 10 + charVal c) false r
    else if c = '_' && !pend then pudLoop a true r
    else none

/-- Unsigned decimal parse: nonempty, starts with a digit, digits with
single interior underscores. -/
def pud (l : List Char) : Option Nat :=
  match l with
  | [] => none
  | c :: _ => if c.isDigit then pudLoop 0 false l else none

/-- Python `int(s)` for base 10 (ASCII model): strip whitespace, optional
sign, digit groups.  `none` models the `ValueError` that
`validate_credentials` catches. -/
def pyInt (l : List Char) : Option Int :=
  match pyStripL l with
  | [] => none
  | c :: r =>
    if c = '+' then (pud r).map (fun n => (n : Int))
    else if c = '-' then (pud r).map (fun n => -(n : Int))
    else (pud (c :: r)).map (fun n => (n : Int))

/-- Python `username.split(':', 1)` followed by the two-element unpacking in
`validate_credentials`: the part before the first colon, or `none` (the
caught `ValueError`) when there is no colon. -/
def splitFirstColon : List Char → Option (List Char)
  | [] => none
  | c :: r => if c = ':' then some [] else (splitFirstColon r).map (fun p => c :: p)

/-! ### Credential issuer (`turn_credentials.py`) -/

/-- The fields of the TURN server entry returned by
`TurnCredentialGenerator.generate_credentials` that the claims are about:
the timestamped username, the derived credential and the expiry. -/
structure Creds where
  username : List Char
  credential : List Char
  validUntil : Nat
deriving DecidableEq

/-- `TurnCredentialGenerator.generate_credentials(username, ttl)`.

`mac secret msg` stands for `base64(hmac_sha1(secret, msg))`; the rest is
translated directly: `ttl = ttl or self.default_ttl` (so a `ttl` of `0`,
like the `None` default, falls back to `default_ttl`),
`timestamp = now + ttl`, `turn_username = f"{timestamp}:{username}"`,
`credential = mac secret turn_username`. -/
def generate_credentials (mac : List Char → List Char → List Char)
    (secret : List Char) (default_ttl now : Nat) (user : List Char) (ttl : Nat) : Creds :=
  let timestamp := now + (if ttl = 0 then default_ttl else ttl)
  let turn_username := natDigits timestamp ++ ':' :: user
  { username := turn_username
    credential := mac secret turn_username
    validUntil := timestamp }

/-- `TurnCredentialGenerator.validate_credentials(username, password)`
evaluated at time `now`: parse the `<timestamp>:` prefix (any failure is
the caught `ValueError`, returning `False`), reject when
`timestamp < now`, otherwise recompute the expected password and compare. -/
def validate_credentials (mac : List Char → List Char → List Char)
    (secret : List Char) (now : Nat) (user password : List Char) : Bool :=
  match splitFirstColon user with
  | none => false
  | some ts_str =>
    match pyInt ts_str with
    | none => false
    | some ts => if ts < (now : Int) then false else password == mac secret user

/-- The development fallback secret hard-coded in
`TurnCredentialGenerator.__init__`. -/
def default_turn_secret : String := "spool-turn-secret-key-change-in-production"

/-- The secret selected by `TurnCredentialGenerator.__init__`:
`turn_secret or os.getenv('TURN_STATIC_AUTH_SECRET', default)`.
`arg` is the constructor argument (`none` = Python `None`; the empty
string is falsy and also falls through), `env` the environment variable
(`none` = unset). -/
def init_turn_secret : Option String → Option String → String
  | some s, env => if s = "" then env.getD default_turn_secret else s
  | none, env => env.getD default_turn_secret

/-- Whether `__init__` raises its `UserWarning`: exactly when the selected
secret is the development default. -/
def init_warns (arg env : Option String) : Bool :=
  init_turn_secret arg env == default_turn_secret

/-! ### Interview stage machine (`langgraph_interview.py`) -/

/-- The interview stages.  The source represents them as strings and never
stores a `"terminated"` value; `terminated` is the spec's name for the
state reached when `_should_continue` routes the graph to `END` /
`prepare_thread_data`. -/
inductive Stage where
  | greeting
  | exploration
  | deep_dive
  | wrap_up
  | terminated
deriving DecidableEq

/-- `InterviewGraph.determine_next_stage`'s stage update, as a function of
the current stage, `message_count` (the user+assistant messages in state)
and `interests_count`. -/
def determine_next_stage (current_stage : Stage) (message_count interests_count : Nat) : Stage :=
  if current_stage = Stage.greeting ∧ 2 < message_count then Stage.exploration
  else if current_stage = Stage.exploration ∧ 2 ≤ interests_count ∧ 6 < message_count then
    Stage.deep_dive
  else if current_stage = Stage.deep_dive ∧ 12 < message_count then Stage.wrap_up
  else current_stage

/-- `InterviewGraph._should_continue`: the terminal decision after a
response is generated.  Returns the literal routing strings of the
source. -/
def should_continue (stage : Stage) (num_messages : Nat) (should_create_thread : Bool) : String :=
  if stage = Stage.wrap_up ∧ 15 < num_messages then
    (if should_create_thread then "prepare_thread" else "end")
  else "continue"

/-- One completed turn's effect on the stage, per the per-turn pipeline of
the graph: recompute the stage (`determine_next_stage`), then apply the
terminal decision (`_should_continue`), reading a non-`"continue"` routing
as the spec's `terminated` state. -/
def stage_step (s : Stage) (turns interests : Nat) (flag : Bool) : Stage :=
  if should_continue (determine_next_stage s turns interests) turns flag = "continue" then
    determine_next_stage s turns interests
  else Stage.terminated

/-- Position of a stage in the order greeting → exploration → deep_dive →
wrap_up → terminated. -/
def stage_rank : Stage → Nat
  | Stage.greeting => 0
  | Stage.exploration => 1
  | Stage.deep_dive => 2
  | Stage.wrap_up => 3
  | Stage.terminated => 4

/-- The sequence of stages a session passes through, starting from `s`,
when the successive turns observe the given `(turns, interests, flag)`
values. -/
def stage_trace : Stage → List (Nat × Nat × Bool) → List Stage
  | s, [] => [s]
  | s, x :: xs => s :: stage_trace (stage_step s x.1 x.2.1 x.2.2) xs

/-! ### Interest tagger (`_extract_interest_tags` and the dedup loop) -/

/-- Scanner for the regex `\[INTEREST:\s*([^\]]+)\]` used by
`re.findall`/`re.sub`: at each position, a match requires the literal
`[INTEREST:` followed by at least one non-`]` character and a closing
`]`; on a match the scan resumes after the `]`, otherwise it advances one
character.  (As analysed from the regex, stripping the raw capture is
equivalent to stripping the whole run between `:` and `]`, so the run is
returned.)  Fuel bounds the recursion depth; callers supply
`length + 1`. -/
def extractTagsGo : Nat → List Char → List (List Char)
  | 0, _ => []
  | _, [] => []
  | fuel + 1, c :: r =>
    if ("[INTEREST:".toList).isPrefixOf (c :: r) then
      let after := (c :: r).drop 10
      let run := after.takeWhile (fun x => x != ']')
      match after.dropWhile (fun x => x != ']') with
      | ']' :: tail =>
        if run.isEmpty then extractTagsGo fuel r else run :: extractTagsGo fuel tail
      | _ => extractTagsGo fuel r
    else extractTagsGo fuel r

/-- `InterviewGraph._extract_interest_tags`:
`[match.strip() for match in re.findall(pattern, text) if match.strip()]`. -/
def extract_interest_tags (s : String) : List String :=
  (((extractTagsGo (s.toList.length + 1) s.toList).map pyStripL).filter
    (fun t => !t.isEmpty)).map String.mk

/-- An interest record as built by `InterviewGraph.extract_interests`:
`{"name": ..., "detected_at": ..., "context": msg.content[:200]}`. -/
structure InterestRec where
  name : String
  detected_at : String
  context : String
deriving DecidableEq

/-- The accumulation loop of `InterviewGraph.extract_interests` over one
generated response: for each tag in order, append a record unless a
record with the same name is already present. -/
def extract_interests_node (ints : List InterestRec) (content stamp : String) : List InterestRec :=
  (extract_interest_tags content).foldl
    (fun acc n =>
      if acc.any (fun r => r.name == n) then acc
      else acc ++ [{ name := n, detected_at := stamp, context := pySlice content 200 }])
    ints

/-- The interest set resulting from a sequence of generated responses
(each paired with its detection timestamp), starting empty. -/
def run_interest_extraction (rs : List (String × String)) : List InterestRec :=
  rs.foldl (fun acc p => extract_interests_node acc p.1 p.2) []

/-! ### Taxonomy matcher and thread hand-off (`lambda_integration.py`) -/

/-- The `subject_keywords` table of `analyze_conversation`. -/
def subject_keywords : List (String × List String) :=
  [("Mathematics", ["math", "calculus", "algebra", "geometry", "statistics", "equation", "theorem"]),
   ("Physics", ["physics", "force", "energy", "motion", "quantum", "gravity", "momentum"]),
   ("Chemistry", ["chemistry", "chemical", "molecule", "reaction", "element", "compound", "atom"]),
   ("Biology", ["biology", "cell", "dna", "evolution", "organism", "ecology", "genetics"]),
   ("Computer Science", ["programming", "algorithm", "code", "software", "computer", "data structure"]),
   ("History", ["history", "historical", "civilization", "war", "revolution", "ancient", "modern"]),
   ("Literature", ["literature", "novel", "poetry", "writing", "author", "story", "narrative"]),
   ("Psychology", ["psychology", "behavior", "mind", "cognitive", "emotion", "personality"]),
   ("Economics", ["economics", "economy", "market", "finance", "trade", "supply", "demand"]),
   ("Art", ["art", "painting", "sculpture", "drawing", "artistic", "gallery", "museum"])]

/-- The `concept_mapping` table of `analyze_conversation`: single trigger
keyword ↦ fixed concept labels. -/
def concept_mapping : List (String × List String) :=
  [("calculus", ["Derivatives", "Integrals", "Limits"]),
   ("algebra", ["Equations", "Variables", "Functions"]),
   ("physics", ["Motion", "Forces", "Energy"]),
   ("chemistry", ["Reactions", "Bonds", "Elements"]),
   ("programming", ["Algorithms", "Data Structures", "Design Patterns"]),
   ("economics", ["Supply and Demand", "Market Theory", "Economic Models"])]

/-- The `topic_keywords` table of `analyze_conversation`. -/
def topic_keywords : List (String × List String) :=
  [("Calculus", ["calculus", "derivative", "integral"]),
   ("Mechanics", ["physics", "motion", "force"]),
   ("Organic Chemistry", ["organic", "carbon", "compound"]),
   ("Genetics", ["gene", "dna", "heredity"]),
   ("Algorithms", ["algorithm", "sorting", "searching"]),
   ("World History", ["history", "civilization", "culture"]),
   ("Literary Analysis", ["literature", "theme", "character"])]

/-- Every keyword configured in `analyze_conversation`: all subject and
topic keywords and all concept trigger keywords. -/
def all_configured_keywords : List String :=
  (subject_keywords.map (fun p => p.2)).flatten ++
    (topic_keywords.map (fun p => p.2)).flatten ++
    concept_mapping.map (fun p => p.1)

/-- `' '.join([m.get('content', '') for m in messages]).lower()`. -/
def conversation_text (messages : List Msg) : List Char :=
  (String.intercalate " " (messages.map (fun m => (pyGet m "content").getD ""))).toList.map
    Char.toLower

/-- The result of `analyze_conversation`. -/
structure Analysis where
  subjects : List String
  topics : List String
  concepts : List String
deriving DecidableEq

/-- `LambdaIntegration.analyze_conversation`: substring keyword detection
over the lower-cased joined message contents, deduplication
(`list(set(...))`, modelled membership-faithfully by `List.dedup`), and
the `General Learning` default when no subject matched. -/
def analyze_conversation (messages : List Msg) : Analysis :=
  let text := conversation_text messages
  let subjects := subject_keywords.foldl
    (fun acc p => if p.2.any (fun k => containsSeq k.toList text) then acc ++ [p.1] else acc) []
  let topics := topic_keywords.foldl
    (fun acc p => if p.2.any (fun k => containsSeq k.toList text) then acc ++ [p.1] else acc) []
  let concepts := concept_mapping.foldl
    (fun acc p => if containsSeq p.1.toList text then acc ++ p.2 else acc) []
  let subjects2 := subjects.dedup
  let topics2 := topics.dedup
  let concepts2 := concepts.dedup
  { subjects := if subjects2.isEmpty then ["General Learning"] else subjects2
    topics := topics2
    concepts := concepts2 }

/-- `LambdaIntegration.generate_thread_title`: first message whose `role`
is `user`, truncated to 100 characters with `'...'` when longer. -/
def generate_thread_title (messages : List Msg) : String :=
  match messages.filter (fun m => pyGet m "role" == some "user") with
  | [] => "New Learning Thread"
  | m :: _ =>
    let first_message := (pyGet m "content").getD ""
    if 100 < first_message.length then pySlice first_message 97 ++ "..." else first_message

/-- The interview-side input of
`LambdaIntegration.transform_interview_to_thread`. -/
structure InterviewData where
  session_id : Option String
  student_id : Option String
  messages : List Msg
  extracted_interests : List String
  mode : Option String
  purpose : Option String
deriving DecidableEq

/-- The thread payload built by `transform_interview_to_thread`. -/
structure ThreadPayload where
  userId : Option String
  title : String
  description : String
  interests : List String
  concepts : List String
  subjects : List String
  topics : List String
  status : String
  source : String
  sessionId : Option String
  mode : Option String
  purpose : Option String
deriving DecidableEq

/-- `LambdaIntegration.transform_interview_to_thread`. -/
def transform_interview_to_thread (d : InterviewData) : ThreadPayload :=
  let user_messages := d.messages.filter (fun m => pyGet m "role" == some "user")
  let primary_question :=
    match user_messages with
    | [] => "Learning exploration"
    | m :: _ => (pyGet m "content").getD "Learning exploration"
  let analysis := analyze_conversation d.messages
  { userId := d.student_id
    title := generate_thread_title d.messages
    description := primary_question
    interests := d.extracted_interests
    concepts := analysis.concepts
    subjects := analysis.subjects
    topics := analysis.topics
    status := "active"
    source := "interview"
    sessionId := d.session_id
    mode := d.mode
    purpose := d.purpose }

/-! ### Per-turn audio pipeline (`voice_agent.py`) -/

/-- Marker remover for `re.sub(r'\[INTEREST:[^\]]+\]', '', text)`: same
scan as `extractTagsGo`, dropping matches and keeping everything else. -/
def stripMarkersGo : Nat → List Char → List Char
  | 0, l => l
  | _, [] => []
  | fuel + 1, c :: r =>
    if ("[INTEREST:".toList).isPrefixOf (c :: r) then
      let after := (c :: r).drop 10
      let run := after.takeWhile (fun x => x != ']')
      match after.dropWhile (fun x => x != ']') with
      | ']' :: tail =>
        if run.isEmpty then c :: stripMarkersGo fuel r else stripMarkersGo fuel tail
      | _ => c :: stripMarkersGo fuel r
    else c :: stripMarkersGo fuel r

/-- Python `text.split()`: maximal runs of non-whitespace characters.  The
second argument accumulates the current word in reverse. -/
def pyWordsAux : List Char → List Char → List (List Char)
  | [], cur => if cur.isEmpty then [] else [cur.reverse]
  | c :: r, cur =>
    if pyIsSpace c then
      (if cur.isEmpty then pyWordsAux r [] else cur.reverse :: pyWordsAux r [])
    else pyWordsAux r (c :: cur)

/-- `InterviewHandler._clean_response_for_tts`: remove `[INTEREST: ...]`
markers, collapse whitespace runs to single spaces
(`' '.join(text.split())`) and trim (the final `.strip()` is a no-op
after the join). -/
def clean_response_for_tts (text : String) : String :=
  if text = "" then ""
  else
    String.intercalate " "
      ((pyWordsAux (stripMarkersGo (text.toList.length + 1) text.toList) []).map String.mk)

/-- The session state mutated by one turn of `InterviewHandler.process`:
the transcript, the interest list maintained by the
`handle_interest_detected` callback (name, detected_at), and the
metadata entries the turn touches. -/
structure Session where
  transcript : List Msg
  interests : List (String × String)
  metadata_concepts : Option (List String)
  prepare_thread : Bool
  thread_summary : Option String
deriving DecidableEq

/-- The dictionary returned by `InterviewGraph.process_message`, as
consumed by `InterviewHandler.process`. -/
structure GraphResult where
  response : String
  interests : List InterestRec
  concepts : List String
  should_create_thread : Bool
  thread_summary : Option String
deriving DecidableEq

/-- `np.zeros(16000)` — one second of silence at 16 kHz, samples modelled
as integers. -/
def one_second_silence : List Int := List.replicate 16000 0

/-- The `user` transcript entry appended by `InterviewHandler.process`. -/
def user_entry (text stamp : String) : Msg :=
  [("speaker", "user"), ("text", text), ("timestamp", stamp)]

/-- The `assistant` transcript entry appended by
`InterviewHandler.process`. -/
def assistant_entry (text stamp : String) : Msg :=
  [("speaker", "assistant"), ("text", text), ("timestamp", stamp)]

/-- Step 2 of the turn: append the `user` transcript entry. -/
def commit_user (s : Session) (text stamp : String) : Session :=
  { s with transcript := s.transcript ++ [user_entry text stamp] }

/-- Steps 4–7 of the turn: the mutations applied from the graph result —
the `handle_interest_detected` dedup-by-name appends, the
`metadata["concepts"]` extension (only when the result's list is truthy),
and the `prepare_thread` / `thread_summary` flags (the summary only when
truthy). -/
def commit_graph (s : Session) (r : GraphResult) (stamp : String) : Session :=
  let ints := r.interests.foldl
    (fun acc rec =>
      if acc.any (fun p => p.1 == rec.name) then acc else acc ++ [(rec.name, stamp)])
    s.interests
  let mc := if r.concepts.isEmpty then s.metadata_concepts
    else some (s.metadata_concepts.getD [] ++ r.concepts)
  let pt := if r.should_create_thread then true else s.prepare_thread
  let tsm :=
    if r.should_create_thread then
      match r.thread_summary with
      | some x => if x = "" then s.thread_summary else some x
      | none => s.thread_summary
    else s.thread_summary
  { s with interests := ints, metadata_concepts := mc, prepare_thread := pt,
           thread_summary := tsm }

/-- Append the `assistant` transcript entry (cleaned response). -/
def commit_assistant (s : Session) (text stamp : String) : Session :=
  { s with transcript := s.transcript ++ [assistant_entry text stamp] }

/-- `InterviewHandler.process`: one turn, with the external capabilities
supplied as explicit results — `sttRes` the speech-to-text outcome,
`llmRes` the `process_message` outcome, `ttsRes` the synthesis outcome
for a given cleaned string.  The enclosing try/except is the explicit
error branches: any failure returns the state as mutated so far together
with `one_second_silence`.  An empty or too-short transcription aborts
with no mutation and an empty (not silent) segment; an empty chunk list
from TTS likewise yields an empty segment. -/
def process (sttRes : Except String String) (llmRes : Except String GraphResult)
    (ttsRes : String → Except String (List (List Int)))
    (stamp1 stamp2 : String) (s : Session) : Session × List Int :=
  match sttRes with
  | Except.error _ => (s, one_second_silence)
  | Except.ok user_text =>
    if user_text = "" ∨ (pyStripL user_text.toList).length < 2 then (s, [])
    else
      let s1 := commit_user s user_text stamp1
      match llmRes with
      | Except.error _ => (s1, one_second_silence)
      | Except.ok r =>
        let s2 := commit_graph s1 r stamp2
        let clean := clean_response_for_tts r.response
        let s3 := commit_assistant s2 clean stamp2
        match ttsRes clean with
        | Except.error _ => (s3, one_second_silence)
        | Except.ok chunks => (s3, if chunks.isEmpty then [] else chunks.flatten)

/-! ### Concrete data for witnesses and counterexamples -/

/-- A concrete keyed MAC used to instantiate the abstract
`base64 ∘ HMAC-SHA1` parameter in witnesses and counterexamples: it
returns the message unchanged, so it is injective in the message for any
fixed secret. -/
def cexMac : List Char → List Char → List Char := fun _ m => m

/-- A concrete secret for witnesses and counterexamples. -/
def cexSecret : List Char := "k".toList

/-- A concrete identity for witnesses and counterexamples. -/
def cexId : List Char := "alice".toList

/-- Messages whose lower-cased text contains "derivative" and "integral"
but not the concept trigger "calculus". -/
def cexMsgsDI : List Msg := [[("content", "derivative integral")]]

/-- Messages whose text contains the trigger "calculus" (and, as
substrings never checked separately, also satisfies the other
hypotheses). -/
def cexMsgsCalc : List Msg := [[("content", "calculus derivative integral")]]

/-- An empty session for the pipeline witnesses. -/
def cexSession : Session :=
  { transcript := [], interests := [], metadata_concepts := none,
    prepare_thread := false, thread_summary := none }

/-- A concrete graph result for the pipeline witnesses. -/
def cexGraphResult : GraphResult :=
  { response := "Nice! [INTEREST: Robotics]",
    interests := [{ name := "Robotics", detected_at := "t", context := "c" }],
    concepts := [], should_create_thread := false, thread_summary := none }

/-- A TTS capability that always fails. -/
def cexTtsFail : String → Except String (List (List Int)) := fun _ => Except.error "boom"

/-- A 50-character first utterance. -/
def cexShortUtterance : String := String.mk (List.replicate 50 'a')

/-- A 150-character first utterance. -/
def cexLongUtterance : String := String.mk (List.replicate 150 'b')

/-- A message list whose first user utterance is `cexShortUtterance`. -/
def cexMsgsShort : List Msg := [[("role", "user"), ("content", cexShortUtterance)]]

/-- A message list whose first user utterance is `cexLongUtterance`. -/
def cexMsgsLong : List Msg := [[("role", "user"), ("content", cexLongUtterance)]]

/-- Interview data whose messages are pipeline-produced transcript entries
(keyed by `speaker`, no `role` key). -/
def cexPipelineData : InterviewData :=
  { session_id := some "s1", student_id := some "u1",
    messages := [user_entry "tell me about calculus" "t0",
                 assistant_entry "Sure! [INTEREST: Calculus]" "t1"],
    extracted_interests := ["Calculus"], mode := some "thread", purpose := none }

/-- Interview data over `role`-keyed messages, for the title witness. -/
def cexRoleDataShort : InterviewData :=
  { session_id := none, student_id := none, messages := cexMsgsShort,
    extracted_interests := [], mode := none, purpose := none }

/-- A response sequence repeating the same interest marker, for the
interest-uniqueness witness. -/
def cexResponses : List (String × String) :=
  [("I love [INTEREST: Robotics] and [INTEREST: Robotics]!", "t1"),
   ("[INTEREST: Robotics] again, plus [INTEREST: Chess]", "t2"),
   ("[INTEREST: Chess]", "t3")]

/-- A concrete turn-observation sequence for the monotonicity witness. -/
def cexTraceInputs : List (Nat × Nat × Bool) :=
  [(1, 0, false), (3, 0, false), (7, 2, false), (13, 2, false), (16, 2, true)]

/-! ### Helper lemmas: decimal digits and parsing -/

/-- Basic facts about decimal digit characters. -/
theorem dChar_facts {d : Nat} (h : d < 10) :
    (dChar d).isDigit = true ∧ charVal (dChar d) = d ∧ dChar d ≠ ':' ∧
      dChar d ≠ '+' ∧ dChar d ≠ '-' ∧ pyIsSpace (dChar d) = false := by
  interval_cases d <;> decide

/-- `natDigitsGo` ignores the exact fuel as long as it exceeds `n`. -/
theorem natDigitsGo_fuel :
    ∀ {f1 : Nat} {f2 n : Nat} (acc : List Char), n < f1 → n < f2 →
      natDigitsGo f1 n acc = natDigitsGo f2 n acc := by
  intro f1
  induction f1 with
  | zero => intro f2 n acc h1 _; omega
  | succ f ih =>
    intro f2 n acc h1 h2
    cases f2 with
    | zero => omega
    | succ g =>
      by_cases hn : n < 10
      · simp [natDigitsGo, hn]
      · have hd : n / 10 < n := Nat.div_lt_self (by omega) (by omega)
        simp only [natDigitsGo, if_neg hn]
        exact ih _ (by omega) (by omega)

/-- The accumulator of `natDigitsGo` is a suffix. -/
theorem natDigitsGo_acc :
    ∀ {f n : Nat} (acc : List Char), n < f →
      natDigitsGo f n acc = natDigitsGo f n [] ++ acc := by
  intro f
  induction f with
  | zero => intro n acc h; omega
  | succ g ih =>
    intro n acc h
    by_cases hn : n < 10
    · simp [natDigitsGo, hn]
    · have hd : n / 10 < n := Nat.div_lt_self (by omega) (by omega)
      simp only [natDigitsGo, if_neg hn]
      rw [ih _ (by omega), ih (dChar (n % 10) :: []) (by omega), List.append_assoc]
      rfl

/-- One-digit numbers. -/
theorem natDigits_lt {n : Nat} (h : n < 10) : natDigits n = [dChar n] := by
  simp [natDigits, natDigitsGo, h]

/-- Multi-digit numbers peel off their last digit. -/
theorem natDigits_ge {n : Nat} (h : 10 ≤ n) :
    natDigits n = natDigits (n / 10) ++ [dChar (n % 10)] := by
  have hd : n / 10 < n := Nat.div_lt_self (by omega) (by omega)
  have h1 : natDigits n = natDigitsGo n (n / 10) [dChar (n % 10)] := by
    simp [natDigits, natDigitsGo, Nat.not_lt.mpr h]
  rw [h1, natDigitsGo_acc _ (by omega),
    @natDigitsGo_fuel n (n / 10 + 1) (n / 10) [] (by omega) (by omega)]
  rfl

/-- Every character of `natDigits n` is a decimal digit character. -/
theorem natDigits_mem {n : Nat} : ∀ c ∈ natDigits n, ∃ d, d < 10 ∧ c = dChar d := by
  induction n using Nat.strong_induction_on with
  | _ n ih =>
    by_cases h : n < 10
    · rw [natDigits_lt h]
      intro c hc
      simp only [List.mem_singleton] at hc
      exact ⟨n, h, hc⟩
    · rw [natDigits_ge (by omega)]
      intro c hc
      rcases List.mem_append.mp hc with h1 | h2
      · exact ih (n / 10) (Nat.div_lt_self (by omega) (by omega)) c h1
      · simp only [List.mem_singleton] at h2
        exact ⟨n % 10, Nat.mod_lt _ (by omega), h2⟩

/-- `natDigits` is never empty. -/
theorem natDigits_ne_nil {n : Nat} : natDigits n ≠ [] := by
  by_cases h : n < 10
  · rw [natDigits_lt h]; simp
  · rw [natDigits_ge (by omega)]; simp

/-- Scanning the digits of `n` multiplies the accumulator by the right
power of ten and adds `n`. -/
theorem pudLoop_digits :
    ∀ (n : Nat) (a : Nat) (rest : List Char),
      pudLoop a false (natDigits n ++ rest) =
        pudLoop (a * 10 ^ (natDigits n).length + n) false rest := by
  intro n
  induction n using Nat.strong_induction_on with
  | _ n ih =>
    intro a rest
    by_cases h : n < 10
    · obtain ⟨hdig, hval, -⟩ := dChar_facts h
      rw [natDigits_lt h]
      simp [pudLoop, hdig, hval]
    · have h10 : 10 ≤ n := by omega
      have hm : n % 10 < 10 := Nat.mod_lt _ (by omega)
      obtain ⟨hdig, hval, -⟩ := dChar_facts hm
      rw [natDigits_ge h10, List.append_assoc,
        ih (n / 10) (Nat.div_lt_self (by omega) (by omega)),
        List.singleton_append]
      have hstep :
          pudLoop (a * 10 ^ (natDigits (n / 10)).length + n / 10) false
              (dChar (n % 10) :: rest) =
            pudLoop ((a * 10 ^ (natDigits (n / 10)).length + n / 10) * 10 + n % 10)
              false rest := by
        simp [pudLoop, hdig, hval]
      rw [hstep]
      congr 1
      rw [List.length_append, List.length_singleton, pow_succ]
      have hdm := Nat.div_add_mod n 10
      generalize (10 : Nat) ^ (natDigits (n / 10)).length = P
      ring_nf
      omega

/-- `pud` parses `natDigits n` back to `n`. -/
theorem pud_natDigits (n : Nat) : pud (natDigits n) = some n := by
  have hloop : pudLoop 0 false (natDigits n) = some n := by
    have h := pudLoop_digits n 0 []
    rw [List.append_nil] at h
    rw [h]
    simp [pudLoop]
  obtain ⟨c, t, hct⟩ := List.exists_cons_of_ne_nil (@natDigits_ne_nil n)
  have hc : c ∈ natDigits n := by rw [hct]; exact List.mem_cons_self _ _
  obtain ⟨d, hd, rfl⟩ := natDigits_mem c hc
  have hdig := (dChar_facts hd).1
  rw [hct] at hloop ⊢
  simp [pud, hdig]
  simpa [pud, hdig] using hloop

/-- `dropWhile` is the identity when no element satisfies the predicate. -/
theorem dropWhile_of_forall_not {p : Char → Bool} :
    ∀ {l : List Char}, (∀ c ∈ l, p c = false) → l.dropWhile p = l := by
  intro l h
  cases l with
  | nil => rfl
  | cons c r => simp [List.dropWhile, h c (List.mem_cons_self _ _)]

/-- `pyStripL` is the identity on whitespace-free character lists. -/
theorem pyStripL_of_no_space {l : List Char} (h : ∀ c ∈ l, pyIsSpace c = false) :
    pyStripL l = l := by
  unfold pyStripL
  rw [dropWhile_of_forall_not h,
    dropWhile_of_forall_not (fun c hc => h c (List.mem_reverse.mp hc)),
    List.reverse_reverse]

/-- `pyInt` parses `natDigits n` back to `n`. -/
theorem pyInt_natDigits (n : Nat) : pyInt (natDigits n) = some (n : Int) := by
  have hall : ∀ c ∈ natDigits n, pyIsSpace c = false := by
    intro c hc
    obtain ⟨d, hd, rfl⟩ := natDigits_mem c hc
    exact (dChar_facts hd).2.2.2.2.2
  have hs : pyStripL (natDigits n) = natDigits n := pyStripL_of_no_space hall
  obtain ⟨c, t, hct⟩ := List.exists_cons_of_ne_nil (@natDigits_ne_nil n)
  have hc : c ∈ natDigits n := by rw [hct]; exact List.mem_cons_self _ _
  obtain ⟨d, hd, rfl⟩ := natDigits_mem c hc
  obtain ⟨-, -, -, hplus, hminus, -⟩ := dChar_facts hd
  have hpud := pud_natDigits n
  rw [hct] at hs hpud
  unfold pyInt
  rw [hct, hs]
  simp [hplus, hminus, hpud]

/-- Splitting a username of the form `digits ++ ':' ++ id` recovers the
digits. -/
theorem splitFirstColon_append {l1 l2 : List Char} (h : ∀ c ∈ l1, c ≠ ':') :
    splitFirstColon (l1 ++ ':' :: l2) = some l1 := by
  induction l1 with
  | nil => simp [splitFirstColon]
  | cons c r ih =>
    have hc := h c (List.mem_cons_self _ _)
    have ih2 := ih (fun x hx => h x (List.mem_cons_of_mem _ hx))
    simp [splitFirstColon, hc, ih2]

/-! ### C1: credential round-trip -/

/-- C1 (amended): for every identity and every positive ttl, the credential
issued by `generate_credentials` validates `true` at any time before
`now + ttl` and `false` at any time past `now + ttl`.  (A `ttl` of zero is
falsy in `ttl = ttl or self.default_ttl` and is replaced by the default
TTL, so the claim as stated fails there — see the counterexample.) -/
theorem credential_roundtrip_amended (mac : List Char → List Char → List Char)
    (secret : List Char) (dttl now : Nat) (id : List Char) (ttl t : Nat)
    (hpos : 0 < ttl) :
    (t < now + ttl →
      validate_credentials mac secret t
        (generate_credentials mac secret dttl now id ttl).username
        (generate_credentials mac secret dttl now id ttl).credential = true) ∧
    (now + ttl < t →
      validate_credentials mac secret t
        (generate_credentials mac secret dttl now id ttl).username
        (generate_credentials mac secret dttl now id ttl).credential = false) := by
  have httl : (if ttl = 0 then dttl else ttl) = ttl := if_neg (by omega)
  have huser : (generate_credentials mac secret dttl now id ttl).username =
      natDigits (now + ttl) ++ ':' :: id := by
    simp [generate_credentials, httl]
  have hcred : (generate_credentials mac secret dttl now id ttl).credential =
      mac secret (natDigits (now + ttl) ++ ':' :: id) := by
    simp [generate_credentials, httl]
  have hsplit : splitFirstColon (natDigits (now + ttl) ++ ':' :: id) =
      some (natDigits (now + ttl)) := by
    refine splitFirstColon_append ?_
    intro c hc
    obtain ⟨d, hd, rfl⟩ := natDigits_mem c hc
    exact (dChar_facts hd).2.2.1
  have hparse := pyInt_natDigits (now + ttl)
  constructor
  · intro ht
    rw [huser, hcred]
    unfold validate_credentials
    rw [hsplit]
    simp only [hparse]
    rw [if_neg (by omega)]
    exact beq_self_eq_true _
  · intro ht
    rw [huser, hcred]
    unfold validate_credentials
    rw [hsplit]
    simp only [hparse]
    rw [if_pos (by omega)]

/-- C1 counterexample: issuing with `ttl = 0` (Python: a falsy `ttl`, which
`ttl or self.default_ttl` silently replaces by 86400) yields a credential
that still validates `true` at time 1001, strictly past
`now + ttl = 1000 + 0` — contradicting the claim that validation is false
at any time past `now + ttl`. -/
theorem credential_roundtrip_cex :
    1000 + 0 < 1001 ∧
    validate_credentials cexMac cexSecret 1001
      (generate_credentials cexMac cexSecret 86400 1000 cexId 0).username
      (generate_credentials cexMac cexSecret 86400 1000 cexId 0).credential = true := by
  constructor
  · decide
  · decide

/-- C1 witness: the amended round-trip at concrete inputs (`ttl = 60`,
issued at 1000): valid at 1001, invalid at 1061. -/
theorem credential_roundtrip_witness :
    (0 : Nat) < 60 ∧
    validate_credentials cexMac cexSecret 1001
      (generate_credentials cexMac cexSecret 86400 1000 cexId 60).username
      (generate_credentials cexMac cexSecret 86400 1000 cexId 60).credential = true ∧
    validate_credentials cexMac cexSecret 1061
      (generate_credentials cexMac cexSecret 86400 1000 cexId 60).username
      (generate_credentials cexMac cexSecret 86400 1000 cexId 60).credential = false :=
  ⟨by decide,
   (credential_roundtrip_amended cexMac cexSecret 86400 1000 cexId 60 1001
      (by decide)).1 (by decide),
   (credential_roundtrip_amended cexMac cexSecret 86400 1000 cexId 60 1061
      (by decide)).2 (by decide)⟩

/-! ### C6: tamper detection -/

/-- Setting a position to a different element changes the list. -/
theorem set_ne_of_getElem?_ne {α : Type} (l : List α) (i : Nat) (c : α)
    (hi : i < l.length) (hc : l[i]? ≠ some c) : l.set i c ≠ l := by
  intro he
  apply hc
  rw [← he]
  exact List.getElem?_set_self (by omega)

/-- Every accepting path of `validate_credentials` compares the supplied
password with the recomputed MAC of the supplied username, so a password
different from that MAC is always rejected. -/
theorem validate_false_of_ne (mac : List Char → List Char → List Char)
    (secret : List Char) (t : Nat) (u p : List Char) (h : p ≠ mac secret u) :
    validate_credentials mac secret t u p = false := by
  have hbeq : (p == mac secret u) = false := by
    cases hb : p == mac secret u
    · rfl
    · exact absurd (eq_of_beq hb) h
  unfold validate_credentials
  cases hs : splitFirstColon u with
  | none => simp [hs]
  | some ts_str =>
    cases hp : pyInt ts_str with
    | none => simp [hs, hp]
    | some ts =>
      by_cases hlt : ts < (t : Int)
      · simp [hs, hp, hlt]
      · simp [hs, hp, hlt, hbeq]

/-- C6 (confirmed): tamper detection.  The keyed MAC `mac secret` is the
model of `base64 ∘ HMAC-SHA1(secret, ·)`; `hinj` is the standard
collision-freedom idealization of that primitive.  Changing any single
character of the issued username or of the issued credential makes
`validate_credentials` return `false` at every evaluation time (the
credential half does not even need `hinj`: the supplied password no
longer equals the recomputed MAC). -/
theorem credential_tamper_detection (mac : List Char → List Char → List Char)
    (secret : List Char) (dttl now ttl t : Nat) (id : List Char)
    (hinj : Function.Injective (mac secret)) :
    (∀ i c, i < (generate_credentials mac secret dttl now id ttl).username.length →
      (generate_credentials mac secret dttl now id ttl).username[i]? ≠ some c →
      validate_credentials mac secret t
        ((generate_credentials mac secret dttl now id ttl).username.set i c)
        (generate_credentials mac secret dttl now id ttl).credential = false) ∧
    (∀ i c, i < (generate_credentials mac secret dttl now id ttl).credential.length →
      (generate_credentials mac secret dttl now id ttl).credential[i]? ≠ some c →
      validate_credentials mac secret t
        (generate_credentials mac secret dttl now id ttl).username
        ((generate_credentials mac secret dttl now id ttl).credential.set i c) = false) := by
  have hcu : (generate_credentials mac secret dttl now id ttl).credential =
      mac secret (generate_credentials mac secret dttl now id ttl).username := rfl
  constructor
  · intro i c hi hc
    apply validate_false_of_ne
    have hne := set_ne_of_getElem?_ne _ i c hi hc
    rw [hcu]
    intro heq
    exact hne (hinj heq.symm)
  · intro i c hi hc
    apply validate_false_of_ne
    rw [hcu]
    rw [hcu] at hc hi
    exact set_ne_of_getElem?_ne _ i c hi hc

/-- C6 witness: with a concrete injective keyed MAC, flipping the first
character of the username, or of the credential, to `'Z'` makes
validation fail. -/
theorem credential_tamper_witness :
    Function.Injective (cexMac cexSecret) ∧
    validate_credentials cexMac cexSecret 1001
      ((generate_credentials cexMac cexSecret 86400 1000 cexId 60).username.set 0 'Z')
      (generate_credentials cexMac cexSecret 86400 1000 cexId 60).credential = false ∧
    validate_credentials cexMac cexSecret 1001
      (generate_credentials cexMac cexSecret 86400 1000 cexId 60).username
      ((generate_credentials cexMac cexSecret 86400 1000 cexId 60).credential.set 0 'Z') =
        false :=
  ⟨fun _ _ hab => hab,
   (credential_tamper_detection cexMac cexSecret 86400 1000 60 1001 cexId
      (fun _ _ hab => hab)).1 0 'Z' (by decide) (by decide),
   (credential_tamper_detection cexMac cexSecret 86400 1000 60 1001 cexId
      (fun _ _ hab => hab)).2 0 'Z' (by decide) (by decide)⟩

/-! ### C2: stage transition policy -/

/-- C2 (confirmed): the stage transition policy.  `determine_next_stage`
realizes the first three rows of the table exactly (greeting →
exploration when turns > 2; exploration → deep_dive when interests ≥ 2
and turns > 6; deep_dive → wrap_up when turns > 12) and leaves every
other stage unchanged; `_should_continue` routes the graph away from
`"continue"` — the spec's wrap_up → terminated transition — exactly at
wrap_up with turns > 15, and keeps every other stage going. -/
theorem stage_transition_policy (t i : Nat) (b : Bool) :
    determine_next_stage Stage.greeting t i =
      (if 2 < t then Stage.exploration else Stage.greeting) ∧
    determine_next_stage Stage.exploration t i =
      (if 2 ≤ i ∧ 6 < t then Stage.deep_dive else Stage.exploration) ∧
    determine_next_stage Stage.deep_dive t i =
      (if 12 < t then Stage.wrap_up else Stage.deep_dive) ∧
    determine_next_stage Stage.wrap_up t i = Stage.wrap_up ∧
    determine_next_stage Stage.terminated t i = Stage.terminated ∧
    (should_continue Stage.wrap_up t b = "continue" ↔ ¬15 < t) ∧
    should_continue Stage.greeting t b = "continue" ∧
    should_continue Stage.exploration t b = "continue" ∧
    should_continue Stage.deep_dive t b = "continue" ∧
    should_continue Stage.terminated t b = "continue" := by
  refine ⟨?_, ?_, ?_, ?_, ?_, ?_, ?_, ?_, ?_, ?_⟩
  · by_cases h : 2 < t <;> simp [determine_next_stage, h]
  · by_cases h : 2 ≤ i ∧ 6 < t <;> simp [determine_next_stage, h]
  · by_cases h : 12 < t <;> simp [determine_next_stage, h]
  · simp [determine_next_stage]
  · simp [determine_next_stage]
  · by_cases h : 15 < t
    · have hcond : Stage.wrap_up = Stage.wrap_up ∧ 15 < t := ⟨rfl, h⟩
      simp only [should_continue, if_pos hcond]
      constructor
      · intro hb; cases b <;> simp_all
      · intro hn; exact absurd h hn
    · simp [should_continue, h]
  · simp [should_continue]
  · simp [should_continue]
  · simp [should_continue]
  · simp [should_continue]

/-! ### C3: stage monotonicity -/

/-- `determine_next_stage` never decreases the stage rank. -/
theorem determine_next_stage_mono (s : Stage) (t i : Nat) :
    stage_rank s ≤ stage_rank (determine_next_stage s t i) := by
  cases s <;> unfold determine_next_stage <;> split_ifs <;> simp_all [stage_rank]

/-- One completed turn never decreases the stage rank. -/
theorem stage_step_mono (s : Stage) (t i : Nat) (b : Bool) :
    stage_rank s ≤ stage_rank (stage_step s t i b) := by
  unfold stage_step
  split_ifs with h
  · exact determine_next_stage_mono s t i
  · show stage_rank s ≤ stage_rank Stage.terminated
    cases s <;> decide

/-- A stage trace always begins with its start stage. -/
theorem stage_trace_head (s : Stage) (l : List (Nat × Nat × Bool)) :
    (stage_trace s l).head? = some s := by
  cases l <;> rfl

/-- C3 (confirmed): stage monotonicity.  For every start stage and every
sequence of processed turns (each observing its `turns`, `interests` and
thread-flag values), the sequence of stages the session passes through is
non-decreasing in the order greeting → exploration → deep_dive → wrap_up
→ terminated; sessions start at `greeting`, which is the special case
`start = Stage.greeting`. -/
theorem stage_monotonic (start : Stage) (inputs : List (Nat × Nat × Bool)) :
    List.Chain' (fun a b => stage_rank a ≤ stage_rank b) (stage_trace start inputs) := by
  induction inputs generalizing start with
  | nil => simp [stage_trace]
  | cons x xs ih =>
    rw [stage_trace, List.chain'_cons']
    refine ⟨?_, ih _⟩
    intro b hb
    rw [stage_trace_head] at hb
    simp only [Option.mem_def, Option.some.injEq] at hb
    subst hb
    exact stage_step_mono start x.1 x.2.1 x.2.2

/-! ### C9: secret configuration -/

/-- C9 counterexample: with no constructor argument and no environment
variable, `TurnCredentialGenerator.__init__` does not fail — it
constructs a generator whose secret is the development default, raising
the `UserWarning` (flagged fallback) instead. -/
theorem turn_secret_fallback_cex :
    init_turn_secret none none = default_turn_secret ∧ init_warns none none = true := by
  constructor
  · rfl
  · rfl

/-- C9 (amended): when no relay secret is configured, construction never
fails; it falls back to the development default secret and flags it (the
`UserWarning` fires exactly when the selected secret is the default, so
the fallback is never silent). -/
theorem turn_secret_fallback_amended (arg env : Option String) :
    (init_warns arg env = true ↔ init_turn_secret arg env = default_turn_secret) ∧
    ((arg = none ∨ arg = some "") → env = none →
      init_turn_secret arg env = default_turn_secret ∧ init_warns arg env = true) := by
  constructor
  · unfold init_warns
    constructor
    · exact fun h => eq_of_beq h
    · intro h; rw [h]; exact beq_self_eq_true _
  · rintro (rfl | rfl) rfl
    · exact ⟨rfl, rfl⟩
    · exact ⟨rfl, rfl⟩

/-- C9 witness: the amended statement applied at the unconfigured case. -/
theorem turn_secret_fallback_witness :
    init_warns none none = true ∧ init_turn_secret none none = default_turn_secret :=
  ⟨((turn_secret_fallback_amended none none).2 (Or.inl rfl) rfl).2,
   ((turn_secret_fallback_amended none none).2 (Or.inl rfl) rfl).1⟩

/-! ### C4: interest-set uniqueness -/

/-- The dedup-by-name accumulation over one list of tag names: it
preserves name-uniqueness and its name set is the union of the existing
names and the scanned names. -/
theorem interest_fold_spec (mk : String → InterestRec) (hmk : ∀ n, (mk n).name = n) :
    ∀ (names : List String) (acc : List InterestRec),
      (acc.map InterestRec.name).Nodup →
      ((names.foldl
          (fun a n => if a.any (fun r => r.name == n) then a else a ++ [mk n])
          acc).map InterestRec.name).Nodup ∧
      ∀ x, x ∈ (names.foldl
          (fun a n => if a.any (fun r => r.name == n) then a else a ++ [mk n])
          acc).map InterestRec.name ↔
        x ∈ acc.map InterestRec.name ∨ x ∈ names := by
  intro names
  induction names with
  | nil =>
    intro acc h
    exact ⟨h, fun x => by simp⟩
  | cons n ns ih =>
    intro acc h
    by_cases hg : acc.any (fun r => r.name == n) = true
    · have hmem : n ∈ acc.map InterestRec.name := by
        obtain ⟨r, hr, hrn⟩ := List.any_eq_true.mp hg
        exact List.mem_map.mpr ⟨r, hr, eq_of_beq hrn⟩
      rw [List.foldl_cons, if_pos hg]
      obtain ⟨h1, h2⟩ := ih acc h
      refine ⟨h1, fun x => ?_⟩
      rw [h2]
      constructor
      · rintro (hx | hx)
        · exact Or.inl hx
        · exact Or.inr (List.mem_cons_of_mem _ hx)
      · rintro (hx | hx)
        · exact Or.inl hx
        · rcases List.mem_cons.mp hx with rfl | hx2
          · exact Or.inl hmem
          · exact Or.inr hx2
    · have hmem : n ∉ acc.map InterestRec.name := by
        intro hn
        apply hg
        obtain ⟨r, hr, hrn⟩ := List.mem_map.mp hn
        exact List.any_eq_true.mpr ⟨r, hr, by rw [hrn]; exact beq_self_eq_true _⟩
      rw [List.foldl_cons, if_neg hg]
      have hmap : (acc ++ [mk n]).map InterestRec.name =
          acc.map InterestRec.name ++ [n] := by
        rw [List.map_append]
        simp [hmk]
      have hnodup : ((acc ++ [mk n]).map InterestRec.name).Nodup := by
        rw [hmap]
        rw [List.nodup_append]
        exact ⟨h, List.nodup_singleton n, by simpa using hmem⟩
      obtain ⟨h1, h2⟩ := ih (acc ++ [mk n]) hnodup
      refine ⟨h1, fun x => ?_⟩
      rw [h2, hmap]
      constructor
      · rintro (hx | hx)
        · rcases List.mem_append.mp hx with hx2 | hx2
          · exact Or.inl hx2
          · simp only [List.mem_singleton] at hx2
            exact Or.inr (hx2 ▸ List.mem_cons_self _ _)
        · exact Or.inr (List.mem_cons_of_mem _ hx)
      · rintro (hx | hx)
        · exact Or.inl (List.mem_append_left _ hx)
        · rcases List.mem_cons.mp hx with rfl | hx2
          · exact Or.inl (List.mem_append_right _ (List.mem_singleton_self _))
          · exact Or.inr hx2

/-- C4 (confirmed): interest-set uniqueness.  For every sequence of
generated responses (with their detection timestamps) — in particular
sequences repeating identical interest markers in any count and order —
the accumulated interest set contains each distinct extracted name
exactly once: its name list is duplicate-free, and a name is present
exactly when some response's tags contain it. -/
theorem interest_set_unique (rs : List (String × String)) :
    ((run_interest_extraction rs).map InterestRec.name).Nodup ∧
    ∀ x, x ∈ (run_interest_extraction rs).map InterestRec.name ↔
      ∃ p ∈ rs, x ∈ extract_interest_tags p.1 := by
  suffices h : ∀ (l : List (String × String)) (acc : List InterestRec),
      (acc.map InterestRec.name).Nodup →
      ((l.foldl (fun a p => extract_interests_node a p.1 p.2) acc).map
        InterestRec.name).Nodup ∧
      ∀ x, x ∈ (l.foldl (fun a p => extract_interests_node a p.1 p.2) acc).map
          InterestRec.name ↔
        x ∈ acc.map InterestRec.name ∨ ∃ p ∈ l, x ∈ extract_interest_tags p.1 by
    obtain ⟨h1, h2⟩ := h rs [] (by simp)
    refine ⟨h1, fun x => ?_⟩
    rw [run_interest_extraction, h2]
    simp
  intro l
  induction l with
  | nil =>
    intro acc h
    exact ⟨h, fun x => by simp⟩
  | cons p ps ih =>
    intro acc h
    obtain ⟨h1, h2⟩ := interest_fold_spec
      (fun n => { name := n, detected_at := p.2, context := pySlice p.1 200 })
      (fun n => rfl) (extract_interest_tags p.1) acc h
    obtain ⟨h3, h4⟩ := ih (extract_interests_node acc p.1 p.2) (by
      rw [extract_interests_node]; exact h1)
    rw [List.foldl_cons]
    refine ⟨h3, fun x => ?_⟩
    rw [h4]
    rw [show (extract_interests_node acc p.1 p.2).map InterestRec.name =
        ((extract_interest_tags p.1).foldl
          (fun a n => if a.any (fun r => r.name == n) then a
            else a ++ [{ name := n, detected_at := p.2, context := pySlice p.1 200 }])
          acc).map InterestRec.name from rfl, h2]
    constructor
    · rintro ((hx | hx) | hx)
      · exact Or.inl hx
      · exact Or.inr ⟨p, List.mem_cons_self _ _, hx⟩
      · obtain ⟨q, hq, hxq⟩ := hx
        exact Or.inr ⟨q, List.mem_cons_of_mem _ hq, hxq⟩
    · rintro (hx | hx)
      · exact Or.inl (Or.inl hx)
      · obtain ⟨q, hq, hxq⟩ := hx
        rcases List.mem_cons.mp hq with rfl | hq2
        · exact Or.inl (Or.inr hxq)
        · exact Or.inr ⟨q, hq2, hxq⟩

/-! ### C5: taxonomy matcher -/

/-- Membership in the label-collecting folds of `analyze_conversation` is
preserved as the fold proceeds. -/
theorem mem_label_fold_of_mem_acc {β : Type} (cond : String × β → Bool)
    (table : List (String × β)) :
    ∀ (acc : List String) (x : String), x ∈ acc →
      x ∈ table.foldl (fun a p => if cond p then a ++ [p.1] else a) acc := by
  induction table with
  | nil => intro acc x hx; exact hx
  | cons p ps ih =>
    intro acc x hx
    rw [List.foldl_cons]
    by_cases hc : cond p
    · rw [if_pos hc]; exact ih _ _ (List.mem_append_left _ hx)
    · rw [if_neg hc]; exact ih _ _ hx

/-- A table entry whose condition holds contributes its label to the
fold. -/
theorem mem_label_fold_of_entry {β : Type} (cond : String × β → Bool)
    (table : List (String × β)) :
    ∀ (acc : List String) (s : String) (kws : β), (s, kws) ∈ table →
      cond (s, kws) = true →
      s ∈ table.foldl (fun a p => if cond p then a ++ [p.1] else a) acc := by
  induction table with
  | nil => intro acc s kws h _; exact absurd h (List.not_mem_nil _)
  | cons p ps ih =>
    intro acc s kws hmem hc
    rw [List.foldl_cons]
    rcases List.mem_cons.mp hmem with rfl | h2
    · rw [if_pos hc]
      exact mem_label_fold_of_mem_acc _ _ _ _
        (List.mem_append_right _ (List.mem_singleton_self _))
    · by_cases hcp : cond p
      · rw [if_pos hcp]; exact ih _ _ _ h2 hc
      · rw [if_neg hcp]; exact ih _ _ _ h2 hc

/-- Membership in the concept-collecting fold is preserved. -/
theorem mem_concept_fold_of_mem_acc (cond : String × List String → Bool)
    (table : List (String × List String)) :
    ∀ (acc : List String) (x : String), x ∈ acc →
      x ∈ table.foldl (fun a p => if cond p then a ++ p.2 else a) acc := by
  induction table with
  | nil => intro acc x hx; exact hx
  | cons p ps ih =>
    intro acc x hx
    rw [List.foldl_cons]
    by_cases hc : cond p
    · rw [if_pos hc]; exact ih _ _ (List.mem_append_left _ hx)
    · rw [if_neg hc]; exact ih _ _ hx

/-- A concept-table entry whose trigger fires contributes each of its
labels. -/
theorem mem_concept_fold_of_entry (cond : String × List String → Bool)
    (table : List (String × List String)) :
    ∀ (acc : List String) (k : String) (cs : List String) (c : String),
      (k, cs) ∈ table → cond (k, cs) = true → c ∈ cs →
      c ∈ table.foldl (fun a p => if cond p then a ++ p.2 else a) acc := by
  induction table with
  | nil => intro acc k cs c h _ _; exact absurd h (List.not_mem_nil _)
  | cons p ps ih =>
    intro acc k cs c hmem hc hcs
    rw [List.foldl_cons]
    rcases List.mem_cons.mp hmem with rfl | h2
    · rw [if_pos hc]
      exact mem_concept_fold_of_mem_acc _ _ _ _ (List.mem_append_right _ hcs)
    · by_cases hcp : cond p
      · rw [if_pos hcp]; exact ih _ _ _ _ h2 hc hcs
      · rw [if_neg hcp]; exact ih _ _ _ _ h2 hc hcs

/-- A fold over a table whose conditions all fail leaves the accumulator
unchanged. -/
theorem label_fold_of_all_false {β : Type} (cond : String × β → Bool)
    (table : List (String × β)) :
    ∀ (acc : List String), (∀ p ∈ table, cond p = false) →
      table.foldl (fun a p => if cond p then a ++ [p.1] else a) acc = acc := by
  induction table with
  | nil => intro acc _; rfl
  | cons p ps ih =>
    intro acc h
    rw [List.foldl_cons, if_neg (by rw [h p (List.mem_cons_self _ _)]; simp)]
    exact ih acc (fun q hq => h q (List.mem_cons_of_mem _ hq))

/-- C5 counterexample: for the message text "derivative integral" — whose
lower-cased form contains both "derivative" and "integral" — the matcher
does return the topic `Calculus`, but the concepts list is empty (the
concepts `Derivatives`, `Integrals`, `Limits` are keyed on the trigger
keyword "calculus", which this text does not contain), refuting the
claimed concept output. -/
theorem taxonomy_matcher_cex :
    containsSeq "derivative".toList (conversation_text cexMsgsDI) = true ∧
    containsSeq "integral".toList (conversation_text cexMsgsDI) = true ∧
    "Calculus" ∈ (analyze_conversation cexMsgsDI).topics ∧
    (analyze_conversation cexMsgsDI).concepts = [] ∧
    "Derivatives" ∉ (analyze_conversation cexMsgsDI).concepts := by
  refine ⟨by decide, by decide, by decide, by decide, by decide⟩

/-- C5 (amended): for every message list, (a) if the lower-cased joined
text contains "derivative" and "integral" the matcher returns the topic
`Calculus`; (b) if it contains the concept trigger "calculus" the
concepts include `Derivatives`, `Integrals` and `Limits`; and (c) if it
contains none of the configured keywords the subjects list is exactly
`["General Learning"]`. -/
theorem taxonomy_matcher_amended (messages : List Msg) :
    (containsSeq "derivative".toList (conversation_text messages) = true →
      containsSeq "integral".toList (conversation_text messages) = true →
      "Calculus" ∈ (analyze_conversation messages).topics) ∧
    (containsSeq "calculus".toList (conversation_text messages) = true →
      "Derivatives" ∈ (analyze_conversation messages).concepts ∧
      "Integrals" ∈ (analyze_conversation messages).concepts ∧
      "Limits" ∈ (analyze_conversation messages).concepts) ∧
    ((∀ k ∈ all_configured_keywords,
        containsSeq k.toList (conversation_text messages) = false) →
      (analyze_conversation messages).subjects = ["General Learning"]) := by
  refine ⟨?_, ?_, ?_⟩
  · intro hd _
    show "Calculus" ∈ (topic_keywords.foldl
      (fun a p =>
        if p.2.any (fun k => containsSeq k.toList (conversation_text messages)) then
          a ++ [p.1]
        else a) []).dedup
    rw [List.mem_dedup]
    refine mem_label_fold_of_entry _ _ _ "Calculus" ["calculus", "derivative", "integral"]
      (by decide) ?_
    exact List.any_eq_true.mpr ⟨"derivative", by decide, hd⟩
  · intro hc
    have hmem : ∀ c ∈ ["Derivatives", "Integrals", "Limits"],
        c ∈ (analyze_conversation messages).concepts := by
      intro c hcs
      show c ∈ (concept_mapping.foldl
        (fun a p =>
          if containsSeq p.1.toList (conversation_text messages) then a ++ p.2 else a)
        []).dedup
      rw [List.mem_dedup]
      exact mem_concept_fold_of_entry _ _ _ "calculus" ["Derivatives", "Integrals", "Limits"]
        c (by decide) hc hcs
    exact ⟨hmem _ (by decide), hmem _ (by decide), hmem _ (by decide)⟩
  · intro h
    have hsub : ∀ p ∈ subject_keywords,
        (p.2.any (fun k => containsSeq k.toList (conversation_text messages))) = false := by
      intro p hp
      rw [List.any_eq_false]
      intro k hk
      have hkall : k ∈ all_configured_keywords := by
        unfold all_configured_keywords
        refine List.mem_append_left _ (List.mem_append_left _ ?_)
        rw [List.mem_flatten]
        exact ⟨p.2, List.mem_map_of_mem _ hp, hk⟩
      rw [h k hkall]
      simp
    show (if ((subject_keywords.foldl
        (fun a p =>
          if p.2.any (fun k => containsSeq k.toList (conversation_text messages)) then
            a ++ [p.1]
          else a) []).dedup).isEmpty then
        ["General Learning"]
      else (subject_keywords.foldl
        (fun a p =>
          if p.2.any (fun k => containsSeq k.toList (conversation_text messages)) then
            a ++ [p.1]
          else a) []).dedup) = ["General Learning"]
    rw [label_fold_of_all_false _ _ _ hsub]
    rfl

/-- C5 witness: the amended statement at the concrete text
"calculus derivative integral" (parts (a) and (b)) and at the
keyword-free text of `cexSession`-style empty input (part (c) applied to
`[]`). -/
theorem taxonomy_matcher_witness :
    "Calculus" ∈ (analyze_conversation cexMsgsCalc).topics ∧
    "Derivatives" ∈ (analyze_conversation cexMsgsCalc).concepts ∧
    "Integrals" ∈ (analyze_conversation cexMsgsCalc).concepts ∧
    "Limits" ∈ (analyze_conversation cexMsgsCalc).concepts ∧
    (analyze_conversation []).subjects = ["General Learning"] :=
  ⟨(taxonomy_matcher_amended cexMsgsCalc).1 (by decide) (by decide),
   ((taxonomy_matcher_amended cexMsgsCalc).2.1 (by decide)).1,
   ((taxonomy_matcher_amended cexMsgsCalc).2.1 (by decide)).2.1,
   ((taxonomy_matcher_amended cexMsgsCalc).2.1 (by decide)).2.2,
   (taxonomy_matcher_amended []).2.2 (by decide)⟩

/-! ### C8: title generation -/

/-- Length of a Python slice. -/
theorem pySlice_length (s : String) (n : Nat) : (pySlice s n).length = min n s.length := by
  show (s.toList.take n).length = min n s.length
  rw [List.length_take]
  rfl

/-- C8 (confirmed): title generation.  If the filtered `role = "user"`
messages start with a message whose content is `u`, then the composed
title is `u` verbatim when `u` has at most 100 characters, and the first
97 characters of `u` followed by the three-character ellipsis marker (100
characters in total) when `u` is longer; the thread description equals
`u` in full. -/
theorem thread_title_generation (msgs : List Msg) (m : Msg) (rest : List Msg) (u : String)
    (hfilter : msgs.filter (fun x => pyGet x "role" == some "user") = m :: rest)
    (hcontent : pyGet m "content" = some u) :
    (u.length ≤ 100 → generate_thread_title msgs = u) ∧
    (100 < u.length →
      generate_thread_title msgs = pySlice u 97 ++ "..." ∧
      (generate_thread_title msgs).length = 100) ∧
    ∀ d : InterviewData, d.messages = msgs →
      (transform_interview_to_thread d).description = u := by
  have htitle : generate_thread_title msgs =
      (if 100 < u.length then pySlice u 97 ++ "..." else u) := by
    unfold generate_thread_title
    rw [hfilter]
    simp [hcontent]
  refine ⟨?_, ?_, ?_⟩
  · intro hle
    rw [htitle, if_neg (by omega)]
  · intro hgt
    have heq : generate_thread_title msgs = pySlice u 97 ++ "..." := by
      rw [htitle, if_pos hgt]
    refine ⟨heq, ?_⟩
    rw [heq, String.length_append, pySlice_length]
    have : min 97 u.length = 97 := by omega
    rw [this]
    rfl
  · intro d hd
    show (transform_interview_to_thread d).description = u
    unfold transform_interview_to_thread
    simp only [hd, hfilter]
    simp [hcontent]

set_option maxRecDepth 8192 in
/-- C8 witness: a 50-character first utterance is returned verbatim as
both title and description; a 150-character first utterance yields a
100-character title equal to its first 97 characters plus `"..."`. -/
theorem thread_title_witness :
    generate_thread_title cexMsgsShort = cexShortUtterance ∧
    (transform_interview_to_thread cexRoleDataShort).description = cexShortUtterance ∧
    generate_thread_title cexMsgsLong = pySlice cexLongUtterance 97 ++ "..." ∧
    (generate_thread_title cexMsgsLong).length = 100 :=
  ⟨(thread_title_generation cexMsgsShort [("role", "user"), ("content", cexShortUtterance)]
      [] cexShortUtterance (by decide) (by decide)).1 (by decide),
   (thread_title_generation cexMsgsShort [("role", "user"), ("content", cexShortUtterance)]
      [] cexShortUtterance (by decide) (by decide)).2.2 cexRoleDataShort rfl,
   ((thread_title_generation cexMsgsLong [("role", "user"), ("content", cexLongUtterance)]
      [] cexLongUtterance (by decide) (by decide)).2.1 (by decide)).1,
   ((thread_title_generation cexMsgsLong [("role", "user"), ("content", cexLongUtterance)]
      [] cexLongUtterance (by decide) (by decide)).2.1 (by decide)).2⟩

/-! ### C10: role/speaker key mismatch in the hand-off -/

/-- The `user` transcript entries appended by the pipeline carry no
`role` key. -/
theorem user_entry_role (text stamp : String) : pyGet (user_entry text stamp) "role" = none := rfl

/-- The `assistant` transcript entries appended by the pipeline carry no
`role` key. -/
theorem assistant_entry_role (text stamp : String) :
    pyGet (assistant_entry text stamp) "role" = none := rfl

/-- C10 (confirmed): the hand-off selects user messages by the `role`
key, while the pipeline appends transcript entries keyed by `speaker`.
For any interview data whose messages all lack a `role` key — which is
what the pipeline produces, and preserves turn after turn — the hand-off
title is the fixed `"New Learning Thread"` and the description the fixed
`"Learning exploration"`, never derived from the first user utterance. -/
theorem role_speaker_mismatch (d : InterviewData)
    (h : ∀ m ∈ d.messages, pyGet m "role" = none) :
    generate_thread_title d.messages = "New Learning Thread" ∧
    (transform_interview_to_thread d).title = "New Learning Thread" ∧
    (transform_interview_to_thread d).description = "Learning exploration" ∧
    ∀ (sttRes : Except String String) (llmRes : Except String GraphResult)
      (ttsRes : String → Except String (List (List Int))) (t1 t2 : String) (s : Session),
      (∀ m ∈ s.transcript, pyGet m "role" = none) →
      ∀ m ∈ (process sttRes llmRes ttsRes t1 t2 s).1.transcript, pyGet m "role" = none := by
  have hfil : d.messages.filter (fun m => pyGet m "role" == some "user") = [] := by
    rw [List.filter_eq_nil_iff]
    intro m hm
    rw [h m hm]
    simp
  have htitle : generate_thread_title d.messages = "New Learning Thread" := by
    unfold generate_thread_title
    rw [hfil]
  refine ⟨htitle, ?_, ?_, ?_⟩
  · show generate_thread_title d.messages = "New Learning Thread"
    exact htitle
  · show (transform_interview_to_thread d).description = "Learning exploration"
    unfold transform_interview_to_thread
    simp only [hfil]
  · intro sttRes llmRes ttsRes t1 t2 s hs
    cases sttRes with
    | error e => exact hs
    | ok user_text =>
      by_cases hshort : user_text = "" ∨ (pyStripL user_text.data).length < 2
      · have hp : (process (Except.ok user_text) llmRes ttsRes t1 t2 s).1 = s := by
          simp [process, hshort]
        rw [hp]
        exact hs
      · have htr1 : ∀ m ∈ (commit_user s user_text t1).transcript, pyGet m "role" = none := by
          intro m hm
          rcases List.mem_append.mp hm with h1 | h2
          · exact hs m h1
          · rw [List.mem_singleton.mp h2]
            exact user_entry_role _ _
        cases llmRes with
        | error e =>
          have hp : (process (Except.ok user_text) (Except.error e) ttsRes t1 t2 s).1 =
              commit_user s user_text t1 := by
            simp [process, hshort]
          rw [hp]
          exact htr1
        | ok r =>
          have htr3 : ∀ m ∈ (commit_assistant
              (commit_graph (commit_user s user_text t1) r t2)
              (clean_response_for_tts r.response) t2).transcript,
              pyGet m "role" = none := by
            intro m hm
            rcases List.mem_append.mp hm with h1 | h2
            · exact htr1 m h1
            · rw [List.mem_singleton.mp h2]
              exact assistant_entry_role _ _
          cases htts : ttsRes (clean_response_for_tts r.response) with
          | error e =>
            have hp : (process (Except.ok user_text) (Except.ok r) ttsRes t1 t2 s).1 =
                commit_assistant (commit_graph (commit_user s user_text t1) r t2)
                  (clean_response_for_tts r.response) t2 := by
              simp [process, hshort, htts]
            rw [hp]
            exact htr3
          | ok chunks =>
            have hp : (process (Except.ok user_text) (Except.ok r) ttsRes t1 t2 s).1 =
                commit_assistant (commit_graph (commit_user s user_text t1) r t2)
                  (clean_response_for_tts r.response) t2 := by
              simp [process, hshort, htts]
            rw [hp]
            exact htr3

/-- C10 witness: a pipeline-produced transcript (entries keyed by
`speaker`) yields the fixed title and description, and a failed-STT turn
preserves role-freeness of the empty transcript. -/
theorem role_speaker_mismatch_witness :
    generate_thread_title cexPipelineData.messages = "New Learning Thread" ∧
    (transform_interview_to_thread cexPipelineData).title = "New Learning Thread" ∧
    (transform_interview_to_thread cexPipelineData).description = "Learning exploration" ∧
    ∀ m ∈ (process (Except.error "boom") (Except.ok cexGraphResult) cexTtsFail "t1" "t2"
        cexSession).1.transcript, pyGet m "role" = none :=
  ⟨(role_speaker_mismatch cexPipelineData (by decide)).1,
   (role_speaker_mismatch cexPipelineData (by decide)).2.1,
   (role_speaker_mismatch cexPipelineData (by decide)).2.2.1,
   (role_speaker_mismatch cexPipelineData (by decide)).2.2.2 (Except.error "boom")
     (Except.ok cexGraphResult) cexTtsFail "t1" "t2" cexSession
     (by intro m hm; exact absurd hm (List.not_mem_nil m))⟩

/-! ### C7: failure degradation -/

/-- C7 (confirmed): failure degradation in the turn pipeline.  For any
session state: a speech-to-text failure returns the untouched session
with the one-second silence segment; a text-generation failure (after a
valid transcription) returns the session with only the already-committed
`user` transcript entry, plus silence; a speech-synthesis failure returns
the session with all mutations committed before synthesis (user entry,
graph-result mutations, assistant entry) and silence.  In every case the
result is an ordinary session value, so the session remains usable for
subsequent turns. -/
theorem turn_failure_degradation (s : Session) (e : String)
    (llmRes : Except String GraphResult)
    (ttsRes : String → Except String (List (List Int))) (stamp1 stamp2 : String) :
    process (Except.error e) llmRes ttsRes stamp1 stamp2 s = (s, one_second_silence) ∧
    (∀ user_text : String,
      ¬(user_text = "" ∨ (pyStripL user_text.toList).length < 2) →
      process (Except.ok user_text) (Except.error e) ttsRes stamp1 stamp2 s =
        (commit_user s user_text stamp1, one_second_silence)) ∧
    (∀ (user_text : String) (r : GraphResult),
      ¬(user_text = "" ∨ (pyStripL user_text.toList).length < 2) →
      ttsRes (clean_response_for_tts r.response) = Except.error e →
      process (Except.ok user_text) (Except.ok r) ttsRes stamp1 stamp2 s =
        (commit_assistant (commit_graph (commit_user s user_text stamp1) r stamp2)
          (clean_response_for_tts r.response) stamp2, one_second_silence)) := by
  refine ⟨rfl, ?_, ?_⟩
  · intro user_text h
    have h2 : ¬(user_text = "" ∨ (pyStripL user_text.data).length < 2) := h
    simp [process, h2]
  · intro user_text r h htts
    have h2 : ¬(user_text = "" ∨ (pyStripL user_text.data).length < 2) := h
    simp [process, h2, htts]

/-- C7 witness: the three failure modes at a concrete empty session, with
the transcription "hello" and a concrete graph result. -/
theorem turn_failure_witness :
    process (Except.error "boom") (Except.ok cexGraphResult) cexTtsFail "t1" "t2"
        cexSession = (cexSession, one_second_silence) ∧
    ¬(("hello" : String) = "" ∨ (pyStripL "hello".toList).length < 2) ∧
    process (Except.ok "hello") (Except.error "boom") cexTtsFail "t1" "t2" cexSession =
      (commit_user cexSession "hello" "t1", one_second_silence) ∧
    process (Except.ok "hello") (Except.ok cexGraphResult) cexTtsFail "t1" "t2" cexSession =
      (commit_assistant (commit_graph (commit_user cexSession "hello" "t1")
          cexGraphResult "t2")
        (clean_response_for_tts cexGraphResult.response) "t2", one_second_silence) :=
  ⟨(turn_failure_degradation cexSession "boom" (Except.ok cexGraphResult) cexTtsFail
      "t1" "t2").1,
   by decide,
   (turn_failure_degradation cexSession "boom" (Except.error "boom") cexTtsFail
      "t1" "t2").2.1 "hello" (by decide),
   (turn_failure_degradation cexSession "boom" (Except.ok cexGraphResult) cexTtsFail
      "t1" "t2").2.2 "hello" cexGraphResult (by decide) rfl⟩

/-! ### Supplementary witnesses for the universally quantified claims -/

/-- C2 witness: the transition policy at concrete turn/interest counts. -/
theorem stage_transition_policy_witness :
    determine_next_stage Stage.greeting 3 0 = Stage.exploration ∧
    determine_next_stage Stage.exploration 7 2 = Stage.deep_dive ∧
    determine_next_stage Stage.deep_dive 13 0 = Stage.wrap_up ∧
    should_continue Stage.wrap_up 16 false ≠ "continue" ∧
    should_continue Stage.deep_dive 16 false = "continue" := by
  refine ⟨?_, ?_, ?_, ?_, ?_⟩
  · have h := (stage_transition_policy 3 0 false).1
    simpa using h
  · have h := (stage_transition_policy 7 2 false).2.1
    simpa using h
  · have h := (stage_transition_policy 13 0 false).2.2.1
    simpa using h
  · have h := (stage_transition_policy 16 0 false).2.2.2.2.2.1
    intro hc
    exact (h.mp hc) (by decide)
  · exact (stage_transition_policy 16 0 false).2.2.2.2.2.2.2.2.1

/-- C3 witness: a concrete session trace is monotone. -/
theorem stage_monotonic_witness :
    List.Chain' (fun a b => stage_rank a ≤ stage_rank b)
      (stage_trace Stage.greeting cexTraceInputs) :=
  stage_monotonic Stage.greeting cexTraceInputs

/-- C4 witness: repeated identical markers across responses produce a
duplicate-free interest set containing each detected name. -/
theorem interest_set_unique_witness :
    ((run_interest_extraction cexResponses).map InterestRec.name).Nodup ∧
    "Robotics" ∈ (run_interest_extraction cexResponses).map InterestRec.name ∧
    "Chess" ∈ (run_interest_extraction cexResponses).map InterestRec.name :=
  ⟨(interest_set_unique cexResponses).1,
   ((interest_set_unique cexResponses).2 "Robotics").mpr
     ⟨("I love [INTEREST: Robotics] and [INTEREST: Robotics]!", "t1"), by decide, by decide⟩,
   ((interest_set_unique cexResponses).2 "Chess").mpr
     ⟨("[INTEREST: Chess]", "t3"), by decide, by decide⟩⟩
